import Mathlib

/-!
# Shallow embedding of the `snl` interpreter

This file embeds the execution engine of the `snl` esoteric-language
interpreter (`src/vm.rs`, the most complete revision of the VM) in Lean 4
and proves properties stated in the specification about it.

Modelling conventions:
* The byte tape (`Tape<u8>` over a `HashMap<usize, u8>`) becomes a structure
  holding an association list from addresses to values; `write` conses a new
  binding (shadowing, observationally identical to `HashMap::insert`) and
  `readAt` returns the most recent binding, defaulting to 0.
* `usize`/`u8` become `Nat`.  Where Rust's unchecked arithmetic can overflow
  or underflow (`head -= 1` at head 0, `left + right` past 255,
  `left - right` below 0, `left / right` with right 0) the run aborts: these
  are the overflow panics of the source, surfaced as fatal `VmError`s.
* Recoverable conditions that the source merely logs (`error!`) are recorded
  in a `warnings` list; execution continues.
* `stdin` is modelled as a list of input lines (lists of characters);
  characters written by `s` are their UTF-8 bytes, as in `str::bytes`.
* Output of `n`/`o`/`p` accumulates into an output string.  The embedding
  models immediate mode (`debug = false`); the debug flag only adds
  rendering and single-step I/O around the same transitions.
* The unbounded dispatch loop is driven by explicit fuel; running out of
  fuel is a distinguished result, distinct from normal halt and fatal error.
-/

/-- A fatal error: a condition that aborts the whole run
(`anyhow` errors and arithmetic panics of the source). -/
inductive VmError where
  | addressUnderflow
  | addOverflow
  | subUnderflow
  | divByZero
  | badNumberInput
  | badCharInput
deriving DecidableEq, Repr

/-- A recoverable condition: the source logs it with `error!` and continues. -/
inductive Warn where
  | missingBracket (letter : Char)
  | mulOverflow (l r : Nat)
  | unknownChar (c : Char)
deriving DecidableEq, Repr

/-- A control-stack entry (`enum Context` in `vm.rs`):
`Zero p` is pushed by `z` (loop while nonzero), `While p` by `w`
(loop while zero); `p` is the position just after the opening `[`. -/
inductive Context where
  | Zero (p : Nat)
  | While (p : Nat)
deriving DecidableEq, Repr

/-- The sparse byte tape (`Tape<u8>`): an association list of written
addresses (most recent binding first) plus the head position. -/
structure Tape where
  data : List (Nat × Nat)
  head : Nat
deriving DecidableEq, Repr

/-- Value at address `a`: the most recently written binding, default 0
(`HashMap::get(..).copied().unwrap_or_default()`). -/
def Tape.readAt (t : Tape) (a : Nat) : Nat :=
  match t.data.find? (fun p => p.fst == a) with
  | some p => p.snd
  | none => 0

/-- `Tape::read`: value at the current head. -/
def Tape.read (t : Tape) : Nat :=
  t.readAt t.head

/-- `Tape::write`: bind the current head to `v` (insert-with-shadowing). -/
def Tape.write (t : Tape) (v : Nat) : Tape :=
  { t with data := (t.head, v) :: t.data }

/-- `Tape::right`: move the head one cell right (always legal). -/
def Tape.right (t : Tape) : Tape :=
  { t with head := t.head + 1 }

/-- `Tape::left`: move the head one cell left.  The source computes
`head -= 1` on a `usize`, which panics when head is 0; that panic is
modelled as `none` (surfaced by callers as `addressUnderflow`). -/
def Tape.left (t : Tape) : Option Tape :=
  if t.head = 0 then none else some { t with head := t.head - 1 }

/-- Largest written address (0 for an empty tape); every address beyond it
reads 0.  Used to bound the scan of the `p` opcode. -/
def Tape.maxAddr (t : Tape) : Nat :=
  t.data.foldr (fun p m => max p.fst m) 0

/-- Length of the null-terminated string at address `a`: number of cells
before the first 0, searched with explicit fuel. -/
def Tape.strLenAux (t : Tape) (a : Nat) : Nat → Nat
  | 0 => 0
  | fuel + 1 => if t.readAt a = 0 then 0 else Tape.strLenAux t (a + 1) fuel + 1

/-- Length of the null-terminated string under the head (the number of
cells the `p` opcode prints).  Fuel `maxAddr + 1` always reaches a 0 cell
because addresses beyond `maxAddr` read 0. -/
def Tape.strLen (t : Tape) : Nat :=
  t.strLenAux t.head (t.maxAddr + 1)

/-- The whole VM state (`struct Vm` of `vm.rs`, plus the explicit
environment: remaining input lines, accumulated output, logged warnings). -/
structure Vm where
  ptr : Nat
  src : List Char
  data : Tape
  contextStack : List Context
  stack : List Nat
  input : List (List Char)
  output : String
  warnings : List Warn
deriving DecidableEq, Repr

/-- Result of one instruction: continue from the new state, or abort. -/
inductive StepResult where
  | ok (v : Vm)
  | fatal (e : VmError) (v : Vm)
deriving DecidableEq, Repr

/-- Result of a run: normal halt, fatal abort, or out of fuel. -/
inductive RunResult where
  | ok (v : Vm)
  | err (e : VmError) (v : Vm)
  | timeout (v : Vm)
deriving DecidableEq, Repr

/-- The initial state: empty tape, head 0, empty stacks, pc 0. -/
def initVm (src : List Char) (input : List (List Char)) : Vm :=
  { ptr := 0
    src := src
    data := { data := [], head := 0 }
    contextStack := []
    stack := []
    input := input
    output := ""
    warnings := [] }

/-- `read_line`: next input line and remaining input.  At end of input,
`read_line` keeps returning an empty line. -/
def readLine (v : Vm) : List Char × List (List Char) :=
  match v.input with
  | [] => ([], [])
  | l :: rest => (l, rest)

/-- `str::trim`: drop whitespace from both ends of a line. -/
def trimChars (s : List Char) : List Char :=
  ((s.dropWhile Char.isWhitespace).reverse.dropWhile Char.isWhitespace).reverse

/-- `u8::from_str` (used by `buf.trim().parse::<u8>()`): an optional `+`
sign, then one or more decimal digits, value at most 255. -/
def parseU8 (s : List Char) : Option Nat :=
  let ds := match s with
    | '+' :: rest => rest
    | _ => s
  if ds.isEmpty then none
  else if ds.all Char.isDigit then
    let n := ds.foldl (fun a c => a * 10 + (c.toNat - 48)) 0
    if n ≤ 255 then some n else none
  else none

/-- `char::from_str` (used by `parse::<char>()`): exactly one character. -/
def parseCharOne : List Char → Option Char
  | [c] => some c
  | _ => none

/-- UTF-8 encoding of one character (`str::bytes` yields these). -/
def utf8Bytes (c : Char) : List Nat :=
  let n := c.toNat
  if n < 128 then [n]
  else if n < 2048 then [192 + n / 64, 128 + n % 64]
  else if n < 65536 then [224 + n / 4096, 128 + (n / 64) % 64, 128 + n % 64]
  else [240 + n / 262144, 128 + (n / 4096) % 64, 128 + (n / 64) % 64,
        128 + n % 64]

/-- The write loop of the `s` opcode: write each byte and move right. -/
def writeString (t : Tape) : List Nat → Tape
  | [] => t
  | b :: rest => writeString ((t.write b).right) rest

/-- The bracket scanner (the `stack_size` loop duplicated in the
`z`/`w`/`e`/`f` arms): starting at `ptr` with nesting depth `depth`,
advance past the matching `]` (a `]` seen at depth 0); every `[` increments
and every other `]` decrements the depth.  Each consumed character is one
`next_char`, which increments the pc even at end of input, so a scan that
falls off the end returns `src.length + 1`. -/
def skipScanGo : List Char → Nat → Nat → Nat
  | [], ptr, _ => ptr + 1
  | c :: rest, ptr, depth =>
    if c = ']' ∧ depth = 0 then ptr + 1
    else if c = ']' then skipScanGo rest (ptr + 1) (depth - 1)
    else if c = '[' then skipScanGo rest (ptr + 1) (depth + 1)
    else skipScanGo rest (ptr + 1) depth

/-- The scanner entry point: the loop reads `src.get? ptr`, that is, the
head of `src.drop ptr`, so it recurses structurally on that suffix. -/
def skipScan (src : List Char) (ptr depth : Nat) : Nat :=
  skipScanGo (src.drop ptr) ptr depth

/-- Does the remaining character list, at nesting depth `depth`, contain a
closing `]` at depth 0 for the scanner to stop at? -/
def hasCloseGo : List Char → Nat → Bool
  | [], _ => false
  | c :: rest, depth =>
    if c = ']' ∧ depth = 0 then true
    else if c = ']' then hasCloseGo rest (depth - 1)
    else if c = '[' then hasCloseGo rest (depth + 1)
    else hasCloseGo rest depth

/-- Does the remainder of the program, starting at `ptr` with nesting depth
`depth`, contain a closing `]` at depth 0 for the scanner to stop at? -/
def hasClose (src : List Char) (ptr depth : Nat) : Bool :=
  hasCloseGo (src.drop ptr) depth

/-- The two-character-opener prologue shared by `z`/`w`/`e`/`f`: if the
character at the pc is `[`, consume it; otherwise log a warning and leave
the pc alone (the letter's own consumption already happened in the main
loop). -/
def consumeOpen (letter : Char) (v : Vm) : Vm :=
  if v.src.get? v.ptr = some '[' then { v with ptr := v.ptr + 1 }
  else { v with warnings := v.warnings ++ [Warn.missingBracket letter] }

/-- One dispatch step (`match c` in `Vm::run`).  `v.ptr` already points
just past the consumed character `c`. -/
def execInstr (c : Char) (v : Vm) : StepResult :=
  if c.isDigit then
    .ok { v with data := v.data.write (c.toNat - 48) }
  else if c = '>' then
    .ok { v with data := v.data.right }
  else if c = '<' then
    match v.data.left with
    | none => .fatal .addressUnderflow v
    | some t => .ok { v with data := t }
  else if c = 'c' then
    let (line, rest) := readLine v
    match parseU8 (trimChars line) with
    | none => .fatal .badNumberInput { v with input := rest }
    | some n => .ok { v with data := v.data.write n, input := rest }
  else if c = 'i' then
    let (line, rest) := readLine v
    match parseCharOne (trimChars line) with
    | none => .fatal .badCharInput { v with input := rest }
    | some ch => .ok { v with data := v.data.write (ch.toNat % 256), input := rest }
  else if c = 's' then
    let (line, rest) := readLine v
    let bs := (trimChars line).flatMap utf8Bytes
    let t := (writeString v.data bs).write 0
    .ok { v with data := { t with head := t.head - bs.length }, input := rest }
  else if c = 'p' then
    let n := v.data.strLen
    let s := ((List.range n).map
      (fun i => Char.ofNat (v.data.readAt (v.data.head + i)))).asString
    .ok { v with output := v.output ++ s }
  else if c = 'n' then
    .ok { v with output := v.output ++ toString v.data.read }
  else if c = 'o' then
    .ok { v with output := v.output ++ (Char.ofNat v.data.read).toString }
  else if c = '+' then
    let l := v.data.read
    let t1 := v.data.right
    let r := t1.read
    match t1.left with
    | none => .fatal .addressUnderflow v
    | some t2 =>
      if l + r ≤ 255 then .ok { v with data := t2.write (l + r) }
      else .fatal .addOverflow v
  else if c = '-' then
    let l := v.data.read
    let t1 := v.data.right
    let r := t1.read
    match t1.left with
    | none => .fatal .addressUnderflow v
    | some t2 =>
      if r ≤ l then .ok { v with data := t2.write (l - r) }
      else .fatal .subUnderflow v
  else if c = '*' then
    let l := v.data.read
    let t1 := v.data.right
    let r := t1.read
    match t1.left with
    | none => .fatal .addressUnderflow v
    | some t2 =>
      if l * r ≤ 255 then .ok { v with data := t2.write (l * r) }
      else .ok { v with data := t2, warnings := v.warnings ++ [Warn.mulOverflow l r] }
  else if c = '/' then
    let l := v.data.read
    let t1 := v.data.right
    let r := t1.read
    match t1.left with
    | none => .fatal .addressUnderflow v
    | some t2 =>
      if r = 0 then .fatal .divByZero v
      else .ok { v with data := t2.write (l / r) }
  else if c = '[' then
    .ok v
  else if c = ']' then
    match v.contextStack with
    | [] => .ok v
    | ctx :: rest =>
      match ctx with
      | .Zero p =>
        if v.data.read ≠ 0 then .ok { v with ptr := p }
        else .ok { v with contextStack := rest }
      | .While p =>
        if v.data.read = 0 then .ok { v with ptr := p }
        else .ok { v with contextStack := rest }
  else if c = '@' then
    .ok { v with stack := v.data.read :: v.stack }
  else if c = '#' then
    match v.stack with
    | [] => .ok v
    | x :: rest => .ok { v with data := v.data.write x, stack := rest }
  else if c = 'e' then
    let v1 := consumeOpen 'e' v
    if v1.data.read = 0 then
      .ok { v1 with ptr := skipScan v1.src v1.ptr 0 }
    else
      .ok v1
  else if c = 'f' then
    let v1 := consumeOpen 'f' v
    if v1.data.read ≠ 0 then
      .ok { v1 with ptr := skipScan v1.src v1.ptr 0 }
    else
      .ok v1
  else if c = 'w' then
    let v1 := consumeOpen 'w' v
    if v1.data.read = 0 then
      .ok { v1 with contextStack := Context.While v1.ptr :: v1.contextStack }
    else
      .ok { v1 with ptr := skipScan v1.src v1.ptr 0 }
  else if c = 'z' then
    let v1 := consumeOpen 'z' v
    if v1.data.read ≠ 0 then
      .ok { v1 with contextStack := Context.Zero v1.ptr :: v1.contextStack }
    else
      .ok { v1 with ptr := skipScan v1.src v1.ptr 0 }
  else
    .ok { v with warnings := v.warnings ++ [Warn.unknownChar c] }

/-- The dispatch loop (`while let Some(c) = self.next_char()`), driven by
fuel.  `next_char` increments the pc even when there is no character, so
the halt case still advances the pc by one. -/
def runAux : Nat → Vm → RunResult
  | 0, v => .timeout v
  | fuel + 1, v =>
    match v.src.get? v.ptr with
    | none => .ok { v with ptr := v.ptr + 1 }
    | some c =>
      match execInstr c { v with ptr := v.ptr + 1 } with
      | .ok v2 => runAux fuel v2
      | .fatal e v2 => .err e v2

/-- `Vm::run` from the initial state, with the given input and fuel. -/
def run (src : List Char) (input : List (List Char)) (fuel : Nat) : RunResult :=
  runAux fuel (initVm src input)

/-! ## Basic tape lemmas -/

lemma Tape.head_write (t : Tape) (v : Nat) : (t.write v).head = t.head := rfl

lemma Tape.readAt_write_self (t : Tape) (v : Nat) :
    (t.write v).readAt t.head = v := by
  simp [Tape.write, Tape.readAt]

lemma Tape.readAt_write_ne (t : Tape) (v a : Nat) (h : a ≠ t.head) :
    (t.write v).readAt a = t.readAt a := by
  simp [Tape.write, Tape.readAt, List.find?]
  have : (t.head == a) = false := by
    simp [beq_iff_eq]
    omega
  simp [this]

lemma Tape.read_write (t : Tape) (v : Nat) : (t.write v).read = v := by
  simp [Tape.read, Tape.head_write, Tape.readAt_write_self]

lemma Tape.readAt_empty (a : Nat) : Tape.readAt { data := [], head := 0 } a = 0 := by
  simp [Tape.readAt]

/-- Extract the final state of a successful run. -/
def resultVm : RunResult → Option Vm
  | .ok v => some v
  | _ => none

/-- Value at address `a` of the final tape of a successful run. -/
def resultCell (r : RunResult) (a : Nat) : Option Nat :=
  (resultVm r).map (fun v => v.data.readAt a)

/-- Final head position of a successful run. -/
def resultHead (r : RunResult) : Option Nat :=
  (resultVm r).map (fun v => v.data.head)

/-! ## Per-opcode unfolding lemmas -/

lemma Tape.left_right (t : Tape) : t.right.left = some t := by
  simp [Tape.right, Tape.left]

lemma execInstr_lt_eq (v : Vm) : execInstr '<' v =
    (match v.data.left with
     | none => .fatal .addressUnderflow v
     | some t => .ok { v with data := t }) := rfl

lemma execInstr_plus_eq (v : Vm) : execInstr '+' v =
    (match v.data.right.left with
     | none => .fatal .addressUnderflow v
     | some t2 =>
       if v.data.read + v.data.right.read ≤ 255 then
         .ok { v with data := t2.write (v.data.read + v.data.right.read) }
       else .fatal .addOverflow v) := rfl

lemma execInstr_minus_eq (v : Vm) : execInstr '-' v =
    (match v.data.right.left with
     | none => .fatal .addressUnderflow v
     | some t2 =>
       if v.data.right.read ≤ v.data.read then
         .ok { v with data := t2.write (v.data.read - v.data.right.read) }
       else .fatal .subUnderflow v) := rfl

lemma execInstr_mul_eq (v : Vm) : execInstr '*' v =
    (match v.data.right.left with
     | none => .fatal .addressUnderflow v
     | some t2 =>
       if v.data.read * v.data.right.read ≤ 255 then
         .ok { v with data := t2.write (v.data.read * v.data.right.read) }
       else
         .ok { v with
               data := t2,
               warnings := v.warnings ++
                 [Warn.mulOverflow v.data.read v.data.right.read] }) := rfl

lemma execInstr_div_eq (v : Vm) : execInstr '/' v =
    (match v.data.right.left with
     | none => .fatal .addressUnderflow v
     | some t2 =>
       if v.data.right.read = 0 then .fatal .divByZero v
       else .ok { v with data := t2.write (v.data.read / v.data.right.read) }) := rfl

lemma execInstr_rb_eq (v : Vm) : execInstr ']' v =
    (match v.contextStack with
     | [] => .ok v
     | ctx :: rest =>
       match ctx with
       | .Zero p =>
         if v.data.read ≠ 0 then .ok { v with ptr := p }
         else .ok { v with contextStack := rest }
       | .While p =>
         if v.data.read = 0 then .ok { v with ptr := p }
         else .ok { v with contextStack := rest }) := rfl

lemma execInstr_at_eq (v : Vm) : execInstr '@' v =
    .ok { v with stack := v.data.read :: v.stack } := rfl

lemma execInstr_hash_eq (v : Vm) : execInstr '#' v =
    (match v.stack with
     | [] => .ok v
     | x :: rest => .ok { v with data := v.data.write x, stack := rest }) := rfl

lemma execInstr_s_eq (v : Vm) : execInstr 's' v =
    (let bs := (trimChars ((readLine v).1)).flatMap utf8Bytes
     let t := (writeString v.data bs).write 0
     .ok { v with data := { t with head := t.head - bs.length },
                  input := (readLine v).2 }) := rfl

lemma execInstr_z_eq (v : Vm) : execInstr 'z' v =
    (let v1 := consumeOpen 'z' v
     if v1.data.read ≠ 0 then
       .ok { v1 with contextStack := Context.Zero v1.ptr :: v1.contextStack }
     else
       .ok { v1 with ptr := skipScan v1.src v1.ptr 0 }) := rfl

lemma execInstr_w_eq (v : Vm) : execInstr 'w' v =
    (let v1 := consumeOpen 'w' v
     if v1.data.read = 0 then
       .ok { v1 with contextStack := Context.While v1.ptr :: v1.contextStack }
     else
       .ok { v1 with ptr := skipScan v1.src v1.ptr 0 }) := rfl

lemma execInstr_e_eq (v : Vm) : execInstr 'e' v =
    (let v1 := consumeOpen 'e' v
     if v1.data.read = 0 then .ok { v1 with ptr := skipScan v1.src v1.ptr 0 }
     else .ok v1) := rfl

lemma execInstr_f_eq (v : Vm) : execInstr 'f' v =
    (let v1 := consumeOpen 'f' v
     if v1.data.read ≠ 0 then .ok { v1 with ptr := skipScan v1.src v1.ptr 0 }
     else .ok v1) := rfl

lemma runAux_succ (fuel : Nat) (v : Vm) : runAux (fuel + 1) v =
    (match v.src.get? v.ptr with
     | none => .ok { v with ptr := v.ptr + 1 }
     | some c =>
       match execInstr c { v with ptr := v.ptr + 1 } with
       | .ok v2 => runAux fuel v2
       | .fatal e v2 => .err e v2) := rfl

/-! ## Claim C1: the `"3>4+"` scenario -/

/-- C1 counterexample: running `"3>4+"` terminates, but cell 0 holds 3, not
the 7 the claim asserts (after `3>4` the head is at cell 1, so `+` adds
cell 1 and cell 2, leaving cell 0 untouched). -/
theorem scenario_3gt4plus_cell0_is_not_seven :
    resultCell (run (String.toList "3>4+") [] 8) 0 = some 3 ∧
    resultCell (run (String.toList "3>4+") [] 8) 0 ≠ some 7 := by
  constructor <;> decide

/-- C1 (amended): running the program `"3>4+"` from the initial state
terminates with cell 0 = 3, cell 1 = 4, and the head at address 1. -/
theorem scenario_3gt4plus_final_state :
    resultCell (run (String.toList "3>4+") [] 8) 0 = some 3 ∧
    resultCell (run (String.toList "3>4+") [] 8) 1 = some 4 ∧
    resultHead (run (String.toList "3>4+") [] 8) = some 1 := by
  refine ⟨?_, ?_, ?_⟩ <;> decide

/-! ## Claim C5: moving left from head 0 -/

/-- C5: executing `<` with the head at address 0 aborts the run with the
address-underflow error (the `usize` subtraction panic of `Tape::left`);
the head of the reported state is still 0 — it never wraps. -/
theorem moveLeft_at_zero_underflows (v : Vm) (fuel : Nat)
    (hc : v.src.get? v.ptr = some '<') (hh : v.data.head = 0) :
    runAux (fuel + 1) v =
      RunResult.err VmError.addressUnderflow { v with ptr := v.ptr + 1 } ∧
    ({ v with ptr := v.ptr + 1 } : Vm).data.head = 0 := by
  refine ⟨?_, hh⟩
  rw [runAux_succ, hc]
  dsimp only
  rw [execInstr_lt_eq]
  simp [Tape.left, hh]

/-- Witness for C5 at the one-character program `"<"`. -/
theorem moveLeft_at_zero_underflows_witness :
    runAux 1 (initVm (String.toList "<") []) =
      RunResult.err VmError.addressUnderflow
        { initVm (String.toList "<") [] with ptr := 1 } := by
  have h := moveLeft_at_zero_underflows (initVm (String.toList "<") []) 0
    (by decide) (by decide)
  exact h.1

/-! ## Arithmetic-arm helper lemmas -/

lemma Tape.read_right (t : Tape) : t.right.read = t.readAt (t.head + 1) := rfl

lemma exec_plus_overflow (v : Vm)
    (h : 255 < v.data.read + v.data.readAt (v.data.head + 1)) :
    execInstr '+' v = .fatal .addOverflow v := by
  rw [execInstr_plus_eq, Tape.left_right]
  dsimp only
  rw [Tape.read_right, if_neg (by omega)]

lemma exec_minus_underflow (v : Vm)
    (h : v.data.read < v.data.readAt (v.data.head + 1)) :
    execInstr '-' v = .fatal .subUnderflow v := by
  rw [execInstr_minus_eq, Tape.left_right]
  dsimp only
  rw [Tape.read_right, if_neg (by omega)]

lemma exec_mul_overflow (v : Vm)
    (h : 255 < v.data.read * v.data.readAt (v.data.head + 1)) :
    execInstr '*' v = .ok { v with warnings := v.warnings ++
      [Warn.mulOverflow v.data.read (v.data.readAt (v.data.head + 1))] } := by
  rw [execInstr_mul_eq, Tape.left_right]
  dsimp only
  rw [Tape.read_right, if_neg (by omega)]

lemma exec_div_zero (v : Vm) (h : v.data.readAt (v.data.head + 1) = 0) :
    execInstr '/' v = .fatal .divByZero v := by
  rw [execInstr_div_eq, Tape.left_right]
  dsimp only
  rw [Tape.read_right, if_pos h]

/-! ## Claim C9: `+` and `-` are unchecked, unlike `*` -/

/-- C9: when the byte sum of the current cell and the next cell exceeds 255,
`+` aborts the run (the unchecked `u8` addition panic), and likewise `-`
aborts when the right operand exceeds the left; the overflow is neither
wrapped, skipped nor logged-and-continued.  In contrast `*` on overflow
continues with only a logged warning. -/
theorem plus_minus_unchecked (v : Vm) (fuel : Nat) :
    (255 < v.data.read + v.data.readAt (v.data.head + 1) →
       execInstr '+' v = .fatal .addOverflow v) ∧
    (v.data.read < v.data.readAt (v.data.head + 1) →
       execInstr '-' v = .fatal .subUnderflow v) ∧
    (255 < v.data.read * v.data.readAt (v.data.head + 1) →
       execInstr '*' v = .ok { v with warnings := v.warnings ++
         [Warn.mulOverflow v.data.read (v.data.readAt (v.data.head + 1))] }) ∧
    (v.src.get? v.ptr = some '+' →
       255 < v.data.read + v.data.readAt (v.data.head + 1) →
       runAux (fuel + 1) v =
         .err .addOverflow { v with ptr := v.ptr + 1 }) := by
  refine ⟨exec_plus_overflow v, exec_minus_underflow v, exec_mul_overflow v, ?_⟩
  intro hc h
  rw [runAux_succ, hc]
  dsimp only
  rw [exec_plus_overflow { v with ptr := v.ptr + 1 } h]

/-- Witness for C9: with cell 0 = 200 and cell 1 = 100, `+` aborts, `-`
aborts (200 < 100 fails, so use 1 and 2), `*` continues with a warning. -/
theorem plus_minus_unchecked_witness :
    execInstr '+'
      { initVm (String.toList "+") [] with
        data := { data := [(0, 200), (1, 100)], head := 0 } } =
      .fatal .addOverflow
        { initVm (String.toList "+") [] with
          data := { data := [(0, 200), (1, 100)], head := 0 } } ∧
    execInstr '-'
      { initVm (String.toList "-") [] with
        data := { data := [(0, 1), (1, 2)], head := 0 } } =
      .fatal .subUnderflow
        { initVm (String.toList "-") [] with
          data := { data := [(0, 1), (1, 2)], head := 0 } } := by
  constructor
  · exact (plus_minus_unchecked
      { initVm (String.toList "+") [] with
        data := { data := [(0, 200), (1, 100)], head := 0 } } 0).1 (by decide)
  · exact (plus_minus_unchecked
      { initVm (String.toList "-") [] with
        data := { data := [(0, 1), (1, 2)], head := 0 } } 0).2.1 (by decide)

/-! ## Claim C6: `*` overflow is non-fatal, `/` by zero is fatal -/

/-- C6: on byte-product overflow, `*` skips the write (the tape of the
continuation state is unchanged), logs a warning, and execution continues
with the next instruction; `/` with a zero right operand aborts the run. -/
theorem mul_nonfatal_div_zero_fatal (v : Vm) (fuel : Nat) :
    (v.src.get? v.ptr = some '*' →
       255 < v.data.read * v.data.readAt (v.data.head + 1) →
       runAux (fuel + 1) v = runAux fuel
         { v with ptr := v.ptr + 1, warnings := v.warnings ++
             [Warn.mulOverflow v.data.read (v.data.readAt (v.data.head + 1))] }) ∧
    (v.src.get? v.ptr = some '/' →
       v.data.readAt (v.data.head + 1) = 0 →
       runAux (fuel + 1) v = .err .divByZero { v with ptr := v.ptr + 1 }) := by
  constructor
  · intro hc h
    rw [runAux_succ, hc]
    dsimp only
    rw [exec_mul_overflow { v with ptr := v.ptr + 1 } h]
  · intro hc h
    rw [runAux_succ, hc]
    dsimp only
    rw [exec_div_zero { v with ptr := v.ptr + 1 } h]

/-- Witness for C6: program `"*"` with cells 200, 100 continues with a
warning; program `"/"` with cells 0, 0 aborts with the divide error. -/
theorem mul_nonfatal_div_zero_fatal_witness :
    runAux 2
      { initVm (String.toList "*") [] with
        data := { data := [(0, 200), (1, 100)], head := 0 } } =
      runAux 1
        { initVm (String.toList "*") [] with
          data := { data := [(0, 200), (1, 100)], head := 0 },
          ptr := 1,
          warnings := [Warn.mulOverflow 200 100] } ∧
    runAux 1 (initVm (String.toList "/") []) =
      .err .divByZero { initVm (String.toList "/") [] with ptr := 1 } := by
  constructor
  · exact (mul_nonfatal_div_zero_fatal
      { initVm (String.toList "*") [] with
        data := { data := [(0, 200), (1, 100)], head := 0 } } 1).1
      (by decide) (by decide)
  · exact (mul_nonfatal_div_zero_fatal (initVm (String.toList "/") []) 0).2
      (by decide) (by decide)


/-! ## Claim C2: bracket letter without a following `[` -/

/-- C2 counterexample: in `"z5"` (cell 0 reads 0), the `z` with no
following `[` is not a no-op: the skip scan still runs and consumes the
whole rest of the program (the pc jumps to 3, not 1); and in `"5z3"`
(cell 0 reads 5) a context is still pushed.  The state predicted by the
claim (only the warning, pc left at the position after the letter) is not
what the step produces. -/
theorem missing_bracket_letter_not_noop :
    execInstr 'z' { initVm (String.toList "z5") [] with ptr := 1 } =
      .ok { initVm (String.toList "z5") [] with
            ptr := 3,
            warnings := [Warn.missingBracket 'z'] } ∧
    execInstr 'z' { initVm (String.toList "z5") [] with ptr := 1 } ≠
      .ok { initVm (String.toList "z5") [] with
            ptr := 1,
            warnings := [Warn.missingBracket 'z'] } ∧
    execInstr 'z' { initVm (String.toList "5z3") [] with
                    ptr := 2,
                    data := { data := [(0, 5)], head := 0 } } =
      .ok { initVm (String.toList "5z3") [] with
            ptr := 2,
            data := { data := [(0, 5)], head := 0 },
            warnings := [Warn.missingBracket 'z'],
            contextStack := [Context.Zero 2] } := by
  refine ⟨?_, ?_, ?_⟩ <;> decide

/-- C2 (amended): when a bracket-introducing letter `z`/`w`/`e`/`f` is not
immediately followed by `[`, the engine logs a recoverable warning and
consumes no extra character, but it does not otherwise treat the letter as
a no-op: the entry test still runs from the unadvanced position, pushing
the loop context when the test passes (`z`/`w`) and running the skip scan
when it fails, exactly as if the `[` had been consumed. -/
theorem missing_bracket_warns_but_still_tests (v : Vm)
    (h : v.src.get? v.ptr ≠ some '[') :
    (execInstr 'z' v = .ok (if v.data.read ≠ 0 then
        { v with
          warnings := v.warnings ++ [Warn.missingBracket 'z'],
          contextStack := Context.Zero v.ptr :: v.contextStack }
      else
        { v with
          warnings := v.warnings ++ [Warn.missingBracket 'z'],
          ptr := skipScan v.src v.ptr 0 })) ∧
    (execInstr 'w' v = .ok (if v.data.read = 0 then
        { v with
          warnings := v.warnings ++ [Warn.missingBracket 'w'],
          contextStack := Context.While v.ptr :: v.contextStack }
      else
        { v with
          warnings := v.warnings ++ [Warn.missingBracket 'w'],
          ptr := skipScan v.src v.ptr 0 })) ∧
    (execInstr 'e' v = .ok (if v.data.read = 0 then
        { v with
          warnings := v.warnings ++ [Warn.missingBracket 'e'],
          ptr := skipScan v.src v.ptr 0 }
      else { v with warnings := v.warnings ++ [Warn.missingBracket 'e'] })) ∧
    (execInstr 'f' v = .ok (if v.data.read ≠ 0 then
        { v with
          warnings := v.warnings ++ [Warn.missingBracket 'f'],
          ptr := skipScan v.src v.ptr 0 }
      else { v with warnings := v.warnings ++ [Warn.missingBracket 'f'] })) := by
  refine ⟨?_, ?_, ?_, ?_⟩
  · rw [execInstr_z_eq]
    simp only [consumeOpen, if_neg h]
    split <;> rfl
  · rw [execInstr_w_eq]
    simp only [consumeOpen, if_neg h]
    split <;> rfl
  · rw [execInstr_e_eq]
    simp only [consumeOpen, if_neg h]
    split <;> rfl
  · rw [execInstr_f_eq]
    simp only [consumeOpen, if_neg h]
    split <;> rfl

/-- Witness for C2 (amended) at `"z5"`, position 1 (cell 0 reads 0). -/
theorem missing_bracket_warns_but_still_tests_witness :
    execInstr 'z' { initVm (String.toList "z5") [] with ptr := 1 } =
      .ok { initVm (String.toList "z5") [] with
            ptr := 3,
            warnings := [Warn.missingBracket 'z'] } := by
  have h := (missing_bracket_warns_but_still_tests
    { initVm (String.toList "z5") [] with ptr := 1 } (by decide)).1
  rw [h]
  decide

/-! ## Claim C3: `z[...]` loop semantics -/

/-- C3: `z` followed by `[` with the cell reading 0 moves the pc past the
matching `]` (via the bracket scanner) and executes nothing else; with the
cell nonzero it enters the body and pushes `Zero` with the return position;
at `]` with a `Zero p` context on top, a nonzero cell resets the pc to `p`
keeping the context (the body re-runs), and a zero cell pops the context
and falls through (the loop ends). -/
theorem z_loop_semantics (v : Vm) :
    (v.src.get? v.ptr = some '[' → v.data.read = 0 →
       execInstr 'z' v = .ok { v with ptr := skipScan v.src (v.ptr + 1) 0 }) ∧
    (v.src.get? v.ptr = some '[' → v.data.read ≠ 0 →
       execInstr 'z' v = .ok { v with
         ptr := v.ptr + 1,
         contextStack := Context.Zero (v.ptr + 1) :: v.contextStack }) ∧
    (∀ p rest, v.contextStack = Context.Zero p :: rest → v.data.read ≠ 0 →
       execInstr ']' v = .ok { v with ptr := p }) ∧
    (∀ p rest, v.contextStack = Context.Zero p :: rest → v.data.read = 0 →
       execInstr ']' v = .ok { v with contextStack := rest }) := by
  refine ⟨?_, ?_, ?_, ?_⟩
  · intro hc h0
    rw [execInstr_z_eq]
    simp only [consumeOpen, if_pos hc]
    rw [if_neg (by simpa using h0)]
  · intro hc hne
    rw [execInstr_z_eq]
    simp only [consumeOpen, if_pos hc]
    rw [if_pos (by simpa using hne)]
  · intro p rest hstack hne
    rw [execInstr_rb_eq, hstack]
    dsimp only
    rw [if_pos hne]
  · intro p rest hstack h0
    rw [execInstr_rb_eq, hstack]
    dsimp only
    rw [if_neg (by simpa using h0)]

/-- Witness for C3: in `"z[5]"` with cell 0 = 0 the scanner skips to
position 4; at a `]` with `Zero 0` on the stack and cell 0 = 7 the pc
resets to 0; with cell 0 = 0 the context is popped. -/
theorem z_loop_semantics_witness :
    execInstr 'z' { initVm (String.toList "z[5]") [] with ptr := 1 } =
      .ok { initVm (String.toList "z[5]") [] with ptr := 4 } ∧
    execInstr ']' { initVm (String.toList "]") [] with
                    ptr := 1,
                    contextStack := [Context.Zero 0],
                    data := { data := [(0, 7)], head := 0 } } =
      .ok { initVm (String.toList "]") [] with
            ptr := 0,
            contextStack := [Context.Zero 0],
            data := { data := [(0, 7)], head := 0 } } ∧
    execInstr ']' { initVm (String.toList "]") [] with
                    ptr := 1,
                    contextStack := [Context.Zero 0] } =
      .ok { initVm (String.toList "]") [] with ptr := 1 } := by
  refine ⟨?_, ?_, ?_⟩
  · have h := (z_loop_semantics
      { initVm (String.toList "z[5]") [] with ptr := 1 }).1 (by decide) (by decide)
    rw [h]
    decide
  · exact (z_loop_semantics _).2.2.1 0 [] rfl (by decide)
  · exact (z_loop_semantics _).2.2.2 0 [] rfl (by decide)

/-! ## Claim C8: `@` then `#` round-trip -/

/-- C8: executing `@` immediately followed by `#` continues execution from
a state whose only changes are the pc (advanced by 2) and a re-write of the
current cell with its own saved value: every tape address reads the same as
before, the head is unchanged, and the value stack (visibly unchanged in
the continuation state) has its pushed value popped back off. -/
theorem push_pop_roundtrip (v : Vm) (fuel : Nat)
    (h1 : v.src.get? v.ptr = some '@') (h2 : v.src.get? (v.ptr + 1) = some '#') :
    runAux (fuel + 2) v =
      runAux fuel { v with ptr := v.ptr + 2, data := v.data.write v.data.read } ∧
    (∀ a, (v.data.write v.data.read).readAt a = v.data.readAt a) ∧
    (v.data.write v.data.read).head = v.data.head := by
  refine ⟨?_, ?_, rfl⟩
  · rw [runAux_succ, h1]
    dsimp only
    rw [execInstr_at_eq]
    dsimp only
    rw [runAux_succ]
    dsimp only
    rw [h2]
    dsimp only
    rw [execInstr_hash_eq]
  · intro a
    by_cases ha : a = v.data.head
    · subst ha
      rw [Tape.readAt_write_self]
      rfl
    · exact Tape.readAt_write_ne _ _ _ ha

/-- Witness for C8 at the program `"@#"` with cell 0 = 5. -/
theorem push_pop_roundtrip_witness :
    runAux 3 { initVm (String.toList "@#") [] with
               data := { data := [(0, 5)], head := 0 } } =
      runAux 1 { initVm (String.toList "@#") [] with
                 ptr := 2,
                 data := Tape.write { data := [(0, 5)], head := 0 }
                   (Tape.read { data := [(0, 5)], head := 0 }) } := by
  exact (push_pop_roundtrip
    { initVm (String.toList "@#") [] with
      data := { data := [(0, 5)], head := 0 } } 1
    (by decide) (by decide)).1

/-! ## Claim C10: skip scan with no matching `]` -/

lemma skipScanGo_of_no_close (rem : List Char) (ptr depth : Nat)
    (h : hasCloseGo rem depth = false) :
    skipScanGo rem ptr depth = ptr + rem.length + 1 := by
  induction rem generalizing ptr depth with
  | nil => simp [skipScanGo]
  | cons c rest ih =>
    rw [hasCloseGo] at h
    rw [skipScanGo]
    by_cases h1 : c = ']' ∧ depth = 0
    · rw [if_pos h1] at h
      cases h
    · rw [if_neg h1] at h ⊢
      by_cases h2 : c = ']'
      · rw [if_pos h2] at h ⊢
        rw [ih _ _ h]
        simp
        omega
      · rw [if_neg h2] at h ⊢
        by_cases h3 : c = '['
        · rw [if_pos h3] at h ⊢
          rw [ih _ _ h]
          simp
          omega
        · rw [if_neg h3] at h ⊢
          rw [ih _ _ h]
          simp
          omega

lemma skipScan_of_no_close (src : List Char) (ptr depth : Nat)
    (hle : ptr ≤ src.length) (h : hasClose src ptr depth = false) :
    skipScan src ptr depth = src.length + 1 := by
  unfold skipScan
  unfold hasClose at h
  rw [skipScanGo_of_no_close _ _ _ h, List.length_drop]
  omega

/-- C10: when a `z[` entry test fails (cell reads 0) and the rest of the
program has no `]` at nesting depth 0, the skip scan consumes every
remaining character (the pc lands past the end of the program), no new
warning is logged and no error is raised, and the very next loop iteration
halts the run normally with success. -/
theorem unbalanced_skip_halts_normally (v : Vm) (fuel : Nat)
    (hopen : v.src.get? v.ptr = some '[')
    (hzero : v.data.read = 0)
    (hnoclose : hasClose v.src (v.ptr + 1) 0 = false) :
    execInstr 'z' v = .ok { v with ptr := v.src.length + 1 } ∧
    runAux (fuel + 1) { v with ptr := v.src.length + 1 } =
      .ok { v with ptr := v.src.length + 2 } := by
  have hlt : v.ptr < v.src.length := (List.get?_eq_some.mp hopen).1
  constructor
  · rw [execInstr_z_eq]
    simp only [consumeOpen, if_pos hopen]
    rw [if_neg (by simpa using hzero)]
    rw [skipScan_of_no_close _ _ _ (by omega) hnoclose]
  · rw [runAux_succ]
    have hnone : v.src.get? (v.src.length + 1) = none := by
      rw [List.get?_eq_none]
      omega
    rw [hnone]

/-- Witness for C10 at `"z[5"` (no closing bracket), position 1, cell 0
reading 0. -/
theorem unbalanced_skip_halts_normally_witness :
    execInstr 'z' { initVm (String.toList "z[5") [] with ptr := 1 } =
      .ok { initVm (String.toList "z[5") [] with ptr := 4 } ∧
    runAux 1 { initVm (String.toList "z[5") [] with ptr := 4 } =
      .ok { initVm (String.toList "z[5") [] with ptr := 5 } := by
  exact unbalanced_skip_halts_normally
    { initVm (String.toList "z[5") [] with ptr := 1 } 0
    (by decide) (by decide) (by decide)

/-! ## Claim C7: the `s` opcode writes a null-terminated string -/

lemma Tape.head_right (t : Tape) : t.right.head = t.head + 1 := rfl

lemma writeString_head (t : Tape) (bs : List Nat) :
    (writeString t bs).head = t.head + bs.length := by
  induction bs generalizing t with
  | nil => simp [writeString]
  | cons b rest ih =>
    rw [writeString, ih]
    have h1 : ((t.write b).right).head = t.head + 1 := rfl
    rw [h1, List.length_cons]
    omega

lemma writeString_readAt_lo (t : Tape) (bs : List Nat) (a : Nat)
    (h : a < t.head) : (writeString t bs).readAt a = t.readAt a := by
  induction bs generalizing t with
  | nil => rfl
  | cons b rest ih =>
    rw [writeString]
    have hh : ((t.write b).right).head = t.head + 1 := rfl
    rw [ih _ (by omega)]
    have h1 : ((t.write b).right).readAt a = (t.write b).readAt a := rfl
    rw [h1, Tape.readAt_write_ne _ _ _ (by omega)]

lemma writeString_readAt_hi (t : Tape) (bs : List Nat) (a : Nat)
    (h : t.head + bs.length ≤ a) : (writeString t bs).readAt a = t.readAt a := by
  induction bs generalizing t with
  | nil => rfl
  | cons b rest ih =>
    rw [List.length_cons] at h
    rw [writeString]
    have hh : ((t.write b).right).head = t.head + 1 := rfl
    rw [ih _ (by omega)]
    have h1 : ((t.write b).right).readAt a = (t.write b).readAt a := rfl
    rw [h1, Tape.readAt_write_ne _ _ _ (by omega)]

lemma writeString_readAt_get (t : Tape) (bs : List Nat) :
    ∀ i, i < bs.length → (writeString t bs).readAt (t.head + i) = bs.getD i 0 := by
  induction bs generalizing t with
  | nil =>
    intro i h
    simp at h
  | cons b rest ih =>
    intro i h
    have hh : ((t.write b).right).head = t.head + 1 := rfl
    cases i with
    | zero =>
      rw [writeString, writeString_readAt_lo _ _ _ (by omega)]
      have h1 : ((t.write b).right).readAt (t.head + 0) = (t.write b).readAt t.head := by
        rw [Nat.add_zero]
        rfl
      rw [h1, Tape.readAt_write_self]
      rfl
    | succ j =>
      rw [List.length_cons] at h
      rw [writeString]
      have harr : t.head + (j + 1) = ((t.write b).right).head + j := by omega
      rw [harr, ih _ j (by omega)]
      rfl

/-- Bytes the `s` opcode writes: the UTF-8 bytes of the trimmed next input
line. -/
def sLineBytes (v : Vm) : List Nat :=
  (trimChars ((readLine v).1)).flatMap utf8Bytes

/-- C7: executing `s` writes each byte of the trimmed input line into
consecutive cells starting at the current head, writes a terminating 0
into the cell after the last byte, restores the head to exactly its prior
position, and changes no other tape address (and no other component of the
state except the consumed input line). -/
theorem s_writes_null_terminated_string (v : Vm) :
    ∃ w, execInstr 's' v = .ok w ∧
      w.data.head = v.data.head ∧
      (∀ i, i < (sLineBytes v).length →
        w.data.readAt (v.data.head + i) = (sLineBytes v).getD i 0) ∧
      w.data.readAt (v.data.head + (sLineBytes v).length) = 0 ∧
      (∀ a, a < v.data.head → w.data.readAt a = v.data.readAt a) ∧
      (∀ a, v.data.head + (sLineBytes v).length < a →
        w.data.readAt a = v.data.readAt a) ∧
      w.ptr = v.ptr ∧ w.stack = v.stack ∧ w.contextStack = v.contextStack ∧
      w.output = v.output ∧ w.warnings = v.warnings ∧ w.src = v.src ∧
      w.input = (readLine v).2 := by
  refine ⟨_, execInstr_s_eq v, ?_, ?_, ?_, ?_, ?_, rfl, rfl, rfl, rfl, rfl, rfl, rfl⟩
  all_goals
    have hws : (writeString v.data (sLineBytes v)).head =
        v.data.head + (sLineBytes v).length := writeString_head _ _
  · show ((writeString v.data (sLineBytes v)).write 0).head - (sLineBytes v).length
        = v.data.head
    rw [Tape.head_write, hws]
    omega
  · intro i hi
    show ((writeString v.data (sLineBytes v)).write 0).readAt (v.data.head + i)
        = (sLineBytes v).getD i 0
    rw [Tape.readAt_write_ne _ _ _ (by omega)]
    exact writeString_readAt_get _ _ i hi
  · show ((writeString v.data (sLineBytes v)).write 0).readAt
        (v.data.head + (sLineBytes v).length) = 0
    have h0 : ((writeString v.data (sLineBytes v)).write 0).readAt
        ((writeString v.data (sLineBytes v)).head) = 0 := Tape.readAt_write_self _ _
    rw [hws] at h0
    exact h0
  · intro a ha
    show ((writeString v.data (sLineBytes v)).write 0).readAt a = v.data.readAt a
    rw [Tape.readAt_write_ne _ _ _ (by omega)]
    exact writeString_readAt_lo _ _ _ (by omega)
  · intro a ha
    show ((writeString v.data (sLineBytes v)).write 0).readAt a = v.data.readAt a
    rw [Tape.readAt_write_ne _ _ _ (by omega)]
    exact writeString_readAt_hi _ _ _ (by omega)

/-- Witness for C7: program `"s"` with input line `"hi"` writes 104, 105, 0
at cells 0, 1, 2 and leaves the head at 0. -/
theorem s_writes_null_terminated_string_witness :
    ∃ w, execInstr 's' (initVm (String.toList "s") [String.toList "hi"]) = .ok w ∧
      w.data.readAt 0 = 104 ∧ w.data.readAt 1 = 105 ∧ w.data.readAt 2 = 0 ∧
      w.data.head = 0 := by
  obtain ⟨w, hw, hhead, hget, hzero, -, -, -, -, -, -, -, -, -⟩ :=
    s_writes_null_terminated_string (initVm (String.toList "s") [String.toList "hi"])
  refine ⟨w, hw, ?_, ?_, ?_, hhead⟩
  · have h := hget 0 (by decide)
    rw [show (sLineBytes (initVm (String.toList "s") [String.toList "hi"])).getD 0 0
        = 104 from by decide] at h
    simpa using h
  · have h := hget 1 (by decide)
    rw [show (sLineBytes (initVm (String.toList "s") [String.toList "hi"])).getD 1 0
        = 105 from by decide] at h
    simpa using h
  · have h := hzero
    rw [show (sLineBytes (initVm (String.toList "s") [String.toList "hi"])).length
        = 2 from by decide] at h
    simpa using h

/-! ## Claim C4 -/

def digitChar : Nat → Char
  | 0 => '0'
  | 1 => '1'
  | 2 => '2'
  | 3 => '3'
  | 4 => '4'
  | 5 => '5'
  | 6 => '6'
  | 7 => '7'
  | 8 => '8'
  | 9 => '9'
  | _ => '0'

def digitsProg : List Nat → List Char
  | [] => []
  | [d] => [digitChar d]
  | d :: rest => digitChar d :: '>' :: digitsProg rest

lemma exec_digit (c : Char) (hc : c.isDigit = true) (v : Vm) :
    execInstr c v = .ok { v with data := v.data.write (c.toNat - 48) } := by
  unfold execInstr
  rw [if_pos hc]

lemma exec_digitChar (d : Nat) (h : d < 10) (v : Vm) :
    execInstr (digitChar d) v = .ok { v with data := v.data.write d } := by
  have h1 : (digitChar d).isDigit = true := by interval_cases d <;> decide
  have h2 : (digitChar d).toNat - 48 = d := by interval_cases d <;> decide
  rw [exec_digit _ h1, h2]

lemma exec_gt (v : Vm) : execInstr '>' v = .ok { v with data := v.data.right } := rfl

lemma runAux_digitsProg (ds : List Nat) :
    ∀ v : Vm, (∀ d ∈ ds, d < 10) → ds ≠ [] →
    v.src.drop v.ptr = digitsProg ds →
    ∃ w, runAux (2 * ds.length) v = .ok w ∧
      w.data.head = v.data.head + (ds.length - 1) ∧
      (∀ i, i < ds.length → w.data.readAt (v.data.head + i) = ds.getD i 0) ∧
      (∀ a, a < v.data.head ∨ v.data.head + ds.length ≤ a →
        w.data.readAt a = v.data.readAt a) := by
  induction ds with
  | nil => intro v _ hne _; exact absurd rfl hne
  | cons d rest ih =>
    intro v hlt _ hsrc
    have hd10 : d < 10 := hlt d (by simp)
    cases rest with
    | nil =>
      -- single digit: one write step, then the halt step
      have hget0 : v.src.get? v.ptr = some (digitChar d) := by
        have h := List.get?_drop v.src v.ptr 0
        rw [hsrc] at h
        simpa using h.symm
      have hlen : v.src.length = v.ptr + 1 := by
        have h := v.src.length_drop v.ptr
        rw [hsrc] at h
        have hle : v.ptr < v.src.length := (List.get?_eq_some.mp hget0).1
        simp [digitsProg] at h
        omega
      have hget1 : v.src.get? (v.ptr + 1) = none := by
        rw [List.get?_eq_none]
        omega
      refine ⟨{ v with ptr := v.ptr + 2, data := v.data.write d }, ?_, ?_, ?_, ?_⟩
      · show runAux (2 * 1) v = _
        rw [show (2 * 1 : Nat) = 0 + 1 + 1 from rfl]
        rw [runAux_succ, hget0]
        dsimp only
        rw [exec_digitChar d hd10]
        dsimp only
        rw [runAux_succ]
        dsimp only
        rw [hget1]
      · show (v.data.write d).head = v.data.head + (1 - 1)
        rw [Tape.head_write]
        omega
      · intro i hi
        simp only [List.length_cons, List.length_nil] at hi
        have hi0 : i = 0 := by omega
        subst hi0
        show (v.data.write d).readAt (v.data.head + 0) = d
        rw [Nat.add_zero, Tape.readAt_write_self]
      · intro a ha
        show (v.data.write d).readAt a = v.data.readAt a
        rw [Tape.readAt_write_ne _ _ _ (by simp at ha; omega)]
    | cons e rest2 =>
      have hsrc' : v.src.drop v.ptr =
          digitChar d :: '>' :: digitsProg (e :: rest2) := hsrc
      have hget0 : v.src.get? v.ptr = some (digitChar d) := by
        have h := List.get?_drop v.src v.ptr 0
        rw [hsrc'] at h
        simpa using h.symm
      have hget1 : v.src.get? (v.ptr + 1) = some '>' := by
        have h := List.get?_drop v.src v.ptr 1
        rw [hsrc'] at h
        simpa using h.symm
      have hdrop2 : v.src.drop (v.ptr + 2) = digitsProg (e :: rest2) := by
        have h : (v.src.drop v.ptr).drop 2 = v.src.drop (v.ptr + 2) := by
          rw [List.drop_drop]
        rw [hsrc'] at h
        simpa using h.symm
      -- two steps: write the digit, move right
      obtain ⟨w, hw, hwhead, hwget, hwpres⟩ :=
        ih { v with ptr := v.ptr + 2, data := (v.data.write d).right }
          (fun x hx => hlt x (by simp [hx]))
          (by simp)
          (by simpa using hdrop2)
      refine ⟨w, ?_, ?_, ?_, ?_⟩
      · rw [show 2 * (d :: e :: rest2).length = 2 * (e :: rest2).length + 1 + 1 from by
          simp [List.length_cons]; omega]
        rw [runAux_succ, hget0]
        dsimp only
        rw [exec_digitChar d hd10]
        dsimp only
        rw [runAux_succ]
        dsimp only
        rw [hget1]
        dsimp only
        rw [exec_gt]
        dsimp only
        exact hw
      · rw [hwhead]
        show (v.data.write d).right.head + ((e :: rest2).length - 1) =
          v.data.head + ((d :: e :: rest2).length - 1)
        have h1 : (v.data.write d).right.head = v.data.head + 1 := rfl
        rw [h1]
        simp only [List.length_cons]
        omega
      · intro i hi
        cases i with
        | zero =>
          have hpres := hwpres v.data.head (by
            left
            show v.data.head < (v.data.write d).right.head
            have h1 : (v.data.write d).right.head = v.data.head + 1 := rfl
            omega)
          rw [Nat.add_zero, hpres]
          have h2 : (v.data.write d).right.readAt v.data.head =
              (v.data.write d).readAt v.data.head := rfl
          rw [h2, Tape.readAt_write_self]
          rfl
        | succ j =>
          have h1 : (v.data.write d).right.head = v.data.head + 1 := rfl
          have hj : j < (e :: rest2).length := by
            simp only [List.length_cons] at hi ⊢
            omega
          have hg := hwget j hj
          rw [h1] at hg
          rw [show v.data.head + (j + 1) = v.data.head + 1 + j from by omega, hg]
          rfl
      · intro a ha
        have h1 : (v.data.write d).right.head = v.data.head + 1 := rfl
        have hane : a ≠ v.data.head := by
          rcases ha with h | h
          · omega
          · simp only [List.length_cons] at h
            omega
        have hpres := hwpres a (by
          rw [h1]
          rcases ha with h | h
          · left; omega
          · right
            simp only [List.length_cons] at h ⊢
            omega)
        rw [hpres]
        have h2 : (v.data.write d).right.readAt a = (v.data.write d).readAt a := rfl
        rw [h2, Tape.readAt_write_ne _ _ _ hane]

/-- C4 counterexample: `"12"` consists only of digits, but both digits are
written to cell 0 (the head never moves), so the final tape is cell 0 = 2,
cell 1 = 0 — not the literal digit sequence 1, 2 at addresses 0, 1. -/
theorem digits_only_literal_tape_cex :
    resultCell (run (String.toList "12") [] 4) 0 = some 2 ∧
    resultCell (run (String.toList "12") [] 4) 1 = some 0 ∧
    ¬ (resultCell (run (String.toList "12") [] 4) 0 = some 1 ∧
       resultCell (run (String.toList "12") [] 4) 1 = some 2) := by
  refine ⟨?_, ?_, ?_⟩ <;> decide

/-- C4 (amended): for every nonempty program of the shape
`d0 > d1 > ... > dn` (digits joined by single right-moves, as built by
`digitsProg`), the tape after execution is the literal digit sequence at
increasing addresses from 0 (0 everywhere beyond), with the head at the
last written address. -/
theorem digits_interspersed_literal_tape (ds : List Nat)
    (hlt : ∀ d ∈ ds, d < 10) (hne : ds ≠ []) :
    ∃ w, run (digitsProg ds) [] (2 * ds.length) = .ok w ∧
      w.data.head = ds.length - 1 ∧
      (∀ i, i < ds.length → w.data.readAt i = ds.getD i 0) ∧
      (∀ a, ds.length ≤ a → w.data.readAt a = 0) := by
  obtain ⟨w, hw, hhead, hget, hpres⟩ :=
    runAux_digitsProg ds (initVm (digitsProg ds) []) hlt hne (by simp [initVm])
  refine ⟨w, hw, ?_, ?_, ?_⟩
  · simpa [initVm] using hhead
  · intro i hi
    have h := hget i hi
    simpa [initVm] using h
  · intro a ha
    have h := hpres a (by right; simpa [initVm] using ha)
    simpa [initVm, Tape.readAt_empty] using h

/-- Witness for C4 (amended) at the digit list `[3, 1, 4]`, i.e. the
program `"3>1>4"`. -/
theorem digits_interspersed_literal_tape_witness :
    ∃ w, run (digitsProg [3, 1, 4]) [] 6 = .ok w ∧
      w.data.head = 2 ∧
      (∀ i, i < 3 → w.data.readAt i = [3, 1, 4].getD i 0) ∧
      (∀ a, 3 ≤ a → w.data.readAt a = 0) :=
  digits_interspersed_literal_tape [3, 1, 4] (by decide) (by decide)
